import Mathlib

/-!
Verification of the Book-Brief-Ai summarization pipeline.

This file shallowly embeds the text chunking / budgeting / summarization
pipeline of `Backend/utils/fileProcessor.js` and the sectioning / retrying
model-call logic of `Backend/server.js`.

Modelling conventions:
* JS strings are `List Char` (`Str`); JS string truthiness is `.isEmpty`.
* The generative model (`model.generateContent`) is an external capability.
  It is modelled by an `Oracle`: a function from the index of the model call
  to the call's outcome, `Except Str Str` (an exception message or the
  returned text).  Functions that call the model thread an explicit call
  counter, so call counts are observable.
* JS `Math.floor(n * 0.50)`, `Math.floor(n * 0.55)` and `Math.floor(n * 0.5)`
  on a string length `n` are modelled as `n * 50 / 100`, `n * 55 / 100` and
  `n * 50 / 100` over `Nat`.  For every `n` below the JS string length limit
  the double-precision product stays within `1/20` of the exact rational
  value, which is farther than the rounding error from any integer boundary,
  so the floors coincide with exact integer floor division.
* `String.prototype.trim` removes whitespace at both ends; the whitespace
  characters relevant to this repository are space, tab, CR and LF.
-/

/-- Characters of a JS string. -/
abbrev Str := List Char

/-- Whitespace test used by `trim` and the `\s` regex class
(restricted to the ASCII whitespace occurring in this code base). -/
def isWS (c : Char) : Bool :=
  c = ' ' || c = '\n' || c = '\t' || c = '\r'

/-- Sentence-ending punctuation of the regex `(?<=[.!?])\s+`. -/
def isPunct (c : Char) : Bool :=
  c = '.' || c = '!' || c = '?'

/-- Drop leading whitespace (left half of JS `trim`). -/
def trimL (l : Str) : Str := l.dropWhile isWS

/-- Drop trailing whitespace (right half of JS `trim`). -/
def trimR (l : Str) : Str := (l.reverse.dropWhile isWS).reverse

/-- JS `String.prototype.trim`. -/
def trim (l : Str) : Str := trimR (trimL l)

/-- The paragraph separator `"\n\n"`. -/
def nn : Str := ['\n', '\n']

/-- Cons a character onto the first piece of a split result. -/
def consHead (c : Char) : List Str → List Str
  | [] => [[c]]
  | p :: ps => (c :: p) :: ps

/-- JS `text.split('\n\n')`: split at each non-overlapping, leftmost-first
occurrence of the two-character separator. -/
def splitNN : Str → List Str
  | [] => [[]]
  | [c] => [[c]]
  | c :: c2 :: rest =>
    if c = '\n' ∧ c2 = '\n' then [] :: splitNN rest
    else consHead c (splitNN (c2 :: rest))

/-- Right-to-left scanner for JS `split(/(?<=[.!?])\s+/)`.
State: the maximal whitespace run immediately to the left of the pieces
produced so far, and those pieces.  A whitespace run is a split point
(and is consumed) exactly when the character to its left is `.`, `!`
or `?`. -/
def splitSentAux : Str → (Str × List Str)
  | [] => ([], [[]])
  | c :: rest =>
    let (pend, ps) := splitSentAux rest
    if isWS c then (c :: pend, ps)
    else if isPunct c && !pend.isEmpty then
      ([], [c] :: ps)
    else
      match ps with
      | [] => ([], [c :: pend])
      | p :: tl => ([], (c :: (pend ++ p)) :: tl)

/-- JS `text.split(/(?<=[.!?])\s+/)`. -/
def splitSent (l : Str) : List Str :=
  let (pend, ps) := splitSentAux l
  match ps with
  | [] => [pend]
  | p :: tl => (pend ++ p) :: tl

/-- Fuel-driven hard split of a sentence at fixed character offsets:
`for (let i = 0; i < sentence.length; i += maxChars) slice(i, i+maxChars)`.
Fuel `l.length` suffices whenever `0 < m`. -/
def hardSplitF (m : Nat) : Nat → Str → List Str
  | _, [] => []
  | 0, l => [l]
  | fuel + 1, l => l.take m :: hardSplitF m fuel (l.drop m)

/-- JS `Array.prototype.join(sep)`. -/
def joinSep (sep : Str) : List Str → Str
  | [] => []
  | [x] => x
  | x :: xs => x ++ sep ++ joinSep sep xs

/-- The `if (current) pushCurrent();` helper of `splitTextIntoChunks`:
push `current.trim()` when `current` and `current.trim()` are non-empty. -/
def pushCur (chunks : List Str) (cur : Str) : List Str :=
  if cur.isEmpty then chunks
  else if (trim cur).isEmpty then chunks
  else chunks ++ [trim cur]

/-- The sentence loop of `splitTextIntoChunks` (fileProcessor.js lines
100-117), run when a single paragraph exceeds `maxChars`.  Returns the
chunk list and the leftover `sentenceChunk`. -/
def sentLoop (m : Nat) : List Str → List Str → Str → (List Str × Str)
  | [], chunks, sc => (chunks, sc)
  | s :: rest, chunks, sc =>
    let t := if sc.isEmpty then s else sc ++ ' ' :: s
    if t.length > m then
      let chunks1 := if sc.isEmpty then chunks else chunks ++ [trim sc]
      if s.length > m then
        sentLoop m rest (chunks1 ++ (hardSplitF m s.length s).map trim) []
      else
        sentLoop m rest chunks1 s
    else
      sentLoop m rest chunks t

/-- The paragraph loop of `splitTextIntoChunks` (fileProcessor.js lines
81-119).  Returns the chunk list and the running `current` chunk. -/
def paraLoop (m : Nat) : List Str → List Str → Str → (List Str × Str)
  | [], chunks, cur => (chunks, cur)
  | p :: rest, chunks, cur =>
    let tp := trim p
    if tp.isEmpty then paraLoop m rest chunks cur
    else
      let tentative := if cur.isEmpty then tp else cur ++ nn ++ tp
      if tentative.length ≤ m then
        paraLoop m rest chunks tentative
      else
        let chunks1 := pushCur chunks cur
        if tp.length ≤ m then
          paraLoop m rest chunks1 tp
        else
          let (chunks2, sc) := sentLoop m (splitSent tp) chunks1 []
          paraLoop m rest chunks2 sc

/-- fileProcessor.js `splitTextIntoChunks(text, maxChars)`. -/
def splitTextIntoChunks (text : Str) (m : Nat) : List Str :=
  let (chunks, cur) := paraLoop m (splitNN text) [] []
  pushCur chunks cur

/-- The document's paragraph content: its non-blank paragraphs, trimmed,
in order. -/
def paragraphContent (text : Str) : List Str :=
  ((splitNN text).map trim).filter (fun p => !p.isEmpty)

/-- Right-to-left scanner for JS `split(/\s+/)`: cut at each maximal
whitespace run (a run is recognised at its leftmost character, i.e. when
the character to its right is not whitespace). -/
def splitWSAux : Str → List Str
  | [] => [[]]
  | c :: rest =>
    let ps := splitWSAux rest
    if isWS c then
      match rest with
      | r :: _ => if isWS r then ps else [] :: ps
      | [] => [] :: ps
    else consHead c ps

/-- JS `text.split(/\s+/)`. -/
def splitWS (l : Str) : List Str := splitWSAux l

/-- server.js `countTokens` fallback branch:
`Math.ceil(text.split(/\s+/).length / 0.75)`, i.e. the ceiling of
four thirds of the piece count. -/
def countTokensFallback (t : Str) : Nat :=
  (4 * (splitWS t).length + 2) / 3

/-- The paragraph loop of server.js `splitTextIntoSections` (lines 69-95),
specialised to the separator `'\n\n'` it is called with; the token measure
is a parameter (`countTokens` delegates to an external tokenizer with
`countTokensFallback` as in-source fallback). -/
def secLoop (tok : Str → Nat) (maxTokens : Nat) :
    List Str → List Str → Str → List Str
  | [], sections, cur =>
    if cur.isEmpty then sections else sections ++ [trim cur]
  | p :: rest, sections, cur =>
    if (trim p).isEmpty then secLoop tok maxTokens rest sections cur
    else
      let tentative := if cur.isEmpty then p else cur ++ nn ++ p
      if tok tentative > maxTokens then
        if cur.isEmpty then
          secLoop tok maxTokens rest (sections ++ [trim p]) []
        else
          secLoop tok maxTokens rest (sections ++ [trim cur]) p
      else secLoop tok maxTokens rest sections tentative

/-- server.js `splitTextIntoSections(text, maxTokens, '\n\n')`. -/
def splitTextIntoSections (tok : Str → Nat) (text : Str) (maxTokens : Nat) :
    List Str :=
  secLoop tok maxTokens (splitNN text) [] []

/-- Does `needle` occur at the start of `hay`? -/
def startsWithL : Str → Str → Bool
  | [], _ => true
  | _ :: _, [] => false
  | a :: as, b :: bs => a == b && startsWithL as bs

/-- JS `String.prototype.includes`. -/
def hasSub (needle : Str) : Str → Bool
  | [] => startsWithL needle []
  | c :: rest => startsWithL needle (c :: rest) || hasSub needle rest

/-- server.js transient-error classification (lines 133-136):
the error message contains a 503 / overloaded / 429 / rate-limit marker. -/
def isRetryable (e : Str) : Bool :=
  hasSub "503".toList e || hasSub "overloaded".toList e ||
  hasSub "429".toList e || hasSub "rate limit".toList e

/-- Outcome of one model invocation, indexed by the call (or attempt)
number: either a thrown error message or the returned text. -/
def Oracle := Nat → Except Str Str

/-- Body of the retry loop of server.js `callGeminiAPI` (lines 120-148).
`attempt` is the 1-based attempt counter, the fuel counts the remaining
loop iterations (`retries - attempt + 1`).  Returns the result string,
the number of attempts actually made, and the list of backoff waits
(`delay * 2 ^ (attempt - 1)`) in order. -/
def callAux (o : Oracle) (retries delay : Nat) :
    Nat → Nat → (Str × Nat × List Nat)
  | _, 0 => ("[Error: Max retries exceeded]".toList, 0, [])
  | attempt, fuel + 1 =>
    match o attempt with
    | Except.ok s => (trim s, 1, [])
    | Except.error e =>
      if isRetryable e && attempt < retries then
        let w := delay * 2 ^ (attempt - 1)
        let (r, k, ws) := callAux o retries delay (attempt + 1) fuel
        (r, k + 1, w :: ws)
      else
        ("[Error summarizing chunk: ".toList ++ e ++ "]".toList, 1, [])

/-- server.js `callGeminiAPI(promptText, retries = 3, delay = 1000)`,
with the model abstracted as an `Oracle` indexed by attempt number. -/
def callGeminiAPI (o : Oracle) (retries delay : Nat) : Str × Nat × List Nat :=
  callAux o retries delay 1 retries

/-- fileProcessor.js `CHARS_PER_WORD`. -/
def CHARS_PER_WORD : Nat := 5

/-- fileProcessor.js `summarizeChunk(text, targetWords)` at call index `k`:
one model call; on success the trimmed response, on error the tagged
placeholder `[Error summarizing this section: ...]`.  `text` and
`targetWords` only shape the prompt, which the `Oracle` abstracts.
Returns the result and the next call index. -/
def summarizeChunk (o : Oracle) (k : Nat) (_text : Str) (_targetWords : Nat) :
    Str × Nat :=
  match o k with
  | Except.ok s => (trim s, k + 1)
  | Except.error e =>
    ("[Error summarizing this section: ".toList ++ e ++ "]".toList, k + 1)

/-- The `Promise.all(chunks.map(...))` fan-out of `summarizeText`
(lines 252-257): one `summarizeChunk` call per chunk, results kept in
chunk order; call indices are assigned in chunk order. -/
def summarizeChunks (o : Oracle) (tw : Nat) : Nat → List Str → (List Str × Nat)
  | k, [] => ([], k)
  | k, c :: cs =>
    let (s, k1) := summarizeChunk o k c tw
    let (ss, k2) := summarizeChunks o tw k1 cs
    (s :: ss, k2)

/-- fileProcessor.js `combineSummaries(summaries, targetWords)` at call
index `k`: a single partial summary is returned unchanged with no model
call; otherwise one model call, whose failure falls back to
`summaries.join('\n\n')`. -/
def combineSummaries (o : Oracle) (k : Nat) (summaries : List Str)
    (_targetWords : Nat) : Str × Nat :=
  if summaries.length = 1 then (summaries.headD [], k)
  else
    match o k with
    | Except.ok s => (trim s, k + 1)
    | Except.error _ => (joinSep nn summaries, k + 1)

/-- fileProcessor.js `compressSummary(summary, maxChars)` at call index
`k`: one model call; on failure
`summary.substring(0, maxChars) + (summary.length > maxChars ? '...' : '')`. -/
def compressSummary (o : Oracle) (k : Nat) (summary : Str) (maxChars : Nat) :
    Str × Nat :=
  match o k with
  | Except.ok s => (trim s, k + 1)
  | Except.error _ =>
    (summary.take maxChars ++
      (if summary.length > maxChars then "...".toList else []), k + 1)

/-- fileProcessor.js line 227:
`Math.max(200, Math.floor(text.length * 0.50))`. -/
def totalTargetCharLength (n : Nat) : Nat := max 200 (n * 50 / 100)

/-- fileProcessor.js line 229:
`Math.max(200, Math.floor(text.length * 0.55))`. -/
def maxFinalCharLength (n : Nat) : Nat := max 200 (n * 55 / 100)

/-- fileProcessor.js line 247:
`Math.max(50, Math.floor(totalTargetCharLength / chunks.length))`. -/
def targetCharLengthPerChunk (total c : Nat) : Nat := max 50 (total / c)

/-- fileProcessor.js `summarizeText(text)` with the model abstracted as an
`Oracle`.  Returns the outcome (`Except.error` models the function
throwing) together with the number of model calls made.  The only `throw`
reachable in the body is the zero-chunk check, which the outer catch
rewraps as `Summarization failed: ...`; model-call failures are all
absorbed by the component fallbacks. -/
def summarizeText (o : Oracle) (text : Str) : Except Str Str × Nat :=
  let n := text.length
  let totalTarget := totalTargetCharLength n
  let maxFinal := maxFinalCharLength n
  if n < 30000 then
    let targetWords := totalTarget / CHARS_PER_WORD
    let (s, k) := summarizeChunk o 0 text targetWords
    (Except.ok s, k)
  else
    let chunks := splitTextIntoChunks text 8000
    if chunks.length = 0 then
      (Except.error "Summarization failed: No text content to summarize".toList, 0)
    else
      let perChunkChars := targetCharLengthPerChunk totalTarget chunks.length
      let targetWordsPerChunk := max 50 (perChunkChars / CHARS_PER_WORD)
      let (summaries, k1) := summarizeChunks o targetWordsPerChunk 0 chunks
      let totalTargetWords := totalTarget / CHARS_PER_WORD
      let (fs1, k2) := combineSummaries o k1 summaries totalTargetWords
      let (fs2, k3) :=
        if fs1.length > maxFinal then compressSummary o k2 fs1 maxFinal
        else (fs1, k2)
      let (fs3, k4) :=
        if fs2.length > n then compressSummary o k3 fs2 (n * 50 / 100)
        else (fs2, k3)
      (Except.ok fs3, k4)

/-- Length Budget Planner output as the spec words it:
`totalTargetSize = max(floor, documentSize * targetRatio)` with floor 200
and target ratio 0.50, in integer floor semantics. -/
def spec_totalTargetSize (n : Nat) : Nat := max 200 (n * 50 / 100)

/-- Spec's ceiling: `ceilingSize = max(floor, documentSize * ceilingRatio)`
with floor 200 and ceiling ratio 0.55, in integer floor semantics. -/
def spec_ceilingSize (n : Nat) : Nat := max 200 (n * 55 / 100)

/-- Spec's per-chunk target:
`perChunkTarget = max(perChunkFloor, totalTargetSize / chunkCount)` with
per-chunk floor 50, in integer floor semantics. -/
def spec_perChunkTarget (total c : Nat) : Nat := max 50 (total / c)

theorem head?_dropWhile_not (p : Char → Bool) :
    ∀ l : Str, ∀ c, (l.dropWhile p).head? = some c → p c = false := by
  intro l
  induction l with
  | nil => intro c h; simp [List.dropWhile] at h
  | cons x xs ih =>
    intro c h
    by_cases hx : p x
    · rw [List.dropWhile_cons_of_pos hx] at h; exact ih c h
    · rw [List.dropWhile_cons_of_neg hx] at h
      simp at h
      rw [← h]
      simpa using hx

theorem trimL_length_le (l : Str) : (trimL l).length ≤ l.length :=
  (List.dropWhile_suffix isWS).sublist.length_le

theorem trimR_length_le (l : Str) : (trimR l).length ≤ l.length := by
  have h := (List.dropWhile_suffix (l := l.reverse) isWS).sublist.length_le
  simpa [trimR] using h

theorem trim_length_le (l : Str) : (trim l).length ≤ l.length :=
  le_trans (trimR_length_le _) (trimL_length_le _)

theorem trimR_prefix (l : Str) : ∃ t, l = trimR l ++ t := by
  refine ⟨(l.reverse.takeWhile isWS).reverse, ?_⟩
  conv_lhs => rw [← l.reverse_reverse,
    ← List.takeWhile_append_dropWhile (p := isWS) (l := l.reverse)]
  rw [List.reverse_append]
  rfl

theorem head?_trimL (l : Str) (c : Char) (h : (trimL l).head? = some c) :
    isWS c = false := head?_dropWhile_not isWS l c h

theorem trimL_eq_self (l : Str)
    (h : ∀ c, l.head? = some c → isWS c = false) : trimL l = l := by
  cases l with
  | nil => rfl
  | cons x xs =>
    have hx := h x rfl
    simp [trimL, List.dropWhile_cons, hx]

theorem getLast?_trimR (l : Str) (c : Char)
    (h : (trimR l).getLast? = some c) : isWS c = false := by
  have he : (trimR l).getLast? = (l.reverse.dropWhile isWS).head? := by
    rw [trimR, ← List.head?_reverse, List.reverse_reverse]
  exact head?_dropWhile_not isWS l.reverse c (he ▸ h)

theorem trimR_eq_self (l : Str)
    (h : ∀ c, l.getLast? = some c → isWS c = false) : trimR l = l := by
  have h2 : ∀ c, l.reverse.head? = some c → isWS c = false := by
    intro c hc; rw [List.head?_reverse] at hc; exact h c hc
  have h3 : trimL l.reverse = l.reverse := trimL_eq_self l.reverse h2
  rw [trimR, show l.reverse.dropWhile isWS = trimL l.reverse from rfl, h3,
    List.reverse_reverse]

/-- A string that is non-empty and has no leading or trailing whitespace
(`trim` fixes it). -/
def NiceStr (l : Str) : Prop :=
  l ≠ [] ∧ (∀ c, l.head? = some c → isWS c = false) ∧
    (∀ c, l.getLast? = some c → isWS c = false)

theorem trim_eq_self_of_nice {l : Str} (h : NiceStr l) : trim l = l := by
  obtain ⟨_, hh, hl⟩ := h
  rw [trim, trimL_eq_self l hh, trimR_eq_self l hl]

theorem head?_trim (l : Str) (c : Char) (h : (trim l).head? = some c) :
    isWS c = false := by
  obtain ⟨t, ht⟩ := trimR_prefix (trimL l)
  have hc : (trimL l).head? = some c := by
    rw [ht]
    cases hx : trimR (trimL l) with
    | nil => rw [trim, hx] at h; simp at h
    | cons a as =>
      rw [trim, hx] at h
      simp at h
      simp [hx, h]
  exact head?_trimL l c hc

theorem trim_nice {l : Str} (h : trim l ≠ []) : NiceStr (trim l) := by
  refine ⟨h, fun c hc => head?_trim l c hc, fun c hc => ?_⟩
  exact getLast?_trimR (trimL l) c hc

theorem trim_trim (l : Str) : trim (trim l) = trim l := by
  by_cases h : trim l = []
  · rw [h]; rfl
  · exact trim_eq_self_of_nice (trim_nice h)

theorem nice_append {a b : Str} (ha : NiceStr a) (hb : NiceStr b) :
    NiceStr (a ++ (nn ++ b)) := by
  obtain ⟨ha0, hah, _⟩ := ha
  obtain ⟨hb0, _, hbl⟩ := hb
  refine ⟨?_, ?_, ?_⟩
  · simp [List.append_eq_nil, ha0]
  · intro c hc
    cases a with
    | nil => exact absurd rfl ha0
    | cons x xs => simp at hc; exact hah c (by simp [hc])
  · intro c hc
    rw [List.getLast?_append, List.getLast?_append] at hc
    rcases List.eq_nil_or_concat b with hb' | ⟨ys, y, hy⟩
    · exact absurd hb' hb0
    · have : b.getLast? = some y := by simp [hy]
      rw [this] at hc
      simp at hc
      exact hbl c (by rw [this, hc])

theorem joinSep_cons_ne (sep x : Str) {B : List Str} (h : B ≠ []) :
    joinSep sep (x :: B) = x ++ sep ++ joinSep sep B := by
  cases B with
  | nil => exact absurd rfl h
  | cons b bs => rfl

theorem joinSep_cons_cons (sep x y : Str) (B : List Str) :
    joinSep sep ((x ++ (sep ++ y)) :: B) = joinSep sep (x :: y :: B) := by
  cases B with
  | nil => simp [joinSep, List.append_assoc]
  | cons b bs =>
    show (x ++ (sep ++ y)) ++ sep ++ joinSep sep (b :: bs) =
      (x ++ sep) ++ (joinSep sep (y :: b :: bs))
    show (x ++ (sep ++ y)) ++ sep ++ joinSep sep (b :: bs) =
      (x ++ sep) ++ (y ++ sep ++ joinSep sep (b :: bs))
    simp [List.append_assoc]

/-- The `current` accumulator as a (possibly empty) list of pending
chunks. -/
def optC (cur : Str) : List Str := if cur.isEmpty then [] else [cur]

/-- Non-blank trimmed paragraphs of a paragraph list. -/
def nbtL (ps : List Str) : List Str :=
  (ps.map trim).filter (fun p => !p.isEmpty)

theorem nbtL_cons (p : Str) (ps : List Str) :
    nbtL (p :: ps) =
      (if (trim p).isEmpty then [] else [trim p]) ++ nbtL ps := by
  by_cases h : (trim p).isEmpty <;> simp [nbtL, List.filter_cons, h]

theorem paragraphContent_eq (text : Str) :
    paragraphContent text = nbtL (splitNN text) := rfl

theorem pushCur_nil (chunks : List Str) : pushCur chunks [] = chunks := rfl

theorem pushCur_nice (chunks : List Str) {cur : Str} (h : NiceStr cur) :
    pushCur chunks cur = chunks ++ [cur] := by
  have ht : trim cur = cur := trim_eq_self_of_nice h
  have h0 : cur.isEmpty = false := by
    cases cur with
    | nil => exact absurd rfl h.1
    | cons x xs => rfl
  simp [pushCur, h0, ht]

theorem splitTextIntoChunks_eq (text : Str) (m : Nat) :
    splitTextIntoChunks text m =
      pushCur (paraLoop m (splitNN text) [] []).1
        (paraLoop m (splitNN text) [] []).2 := rfl

theorem hardSplitF_bound (m : Nat) (hm : 0 < m) :
    ∀ fuel l, l.length ≤ fuel → ∀ c ∈ hardSplitF m fuel l, c.length ≤ m := by
  intro fuel
  induction fuel with
  | zero =>
    intro l hl c hc
    cases l with
    | nil => simp [hardSplitF] at hc
    | cons x xs => simp at hl
  | succ n ih =>
    intro l hl c hc
    cases l with
    | nil => simp [hardSplitF] at hc
    | cons x xs =>
      rw [show hardSplitF m (n + 1) (x :: xs) =
          (x :: xs).take m :: hardSplitF m n ((x :: xs).drop m) from rfl] at hc
      rcases List.mem_cons.1 hc with hc | hc
      · subst hc
        simp [List.length_take]
      · refine ih ((x :: xs).drop m) ?_ c hc
        simp at hl ⊢
        omega

theorem mem_append_bound {m : Nat} {A B : List Str}
    (hA : ∀ c ∈ A, c.length ≤ m) (hB : ∀ c ∈ B, c.length ≤ m) :
    ∀ c ∈ A ++ B, c.length ≤ m := by
  intro c hc
  rcases List.mem_append.1 hc with h | h
  exacts [hA c h, hB c h]

theorem hardSplit_trim_bound {m : Nat} (hm : 0 < m) (s : Str) :
    ∀ c ∈ (hardSplitF m s.length s).map trim, c.length ≤ m := by
  intro c hc
  rcases List.mem_map.1 hc with ⟨c', hc', rfl⟩
  exact le_trans (trim_length_le c')
    (hardSplitF_bound m hm s.length s le_rfl c' hc')

theorem sentLoop_bound (m : Nat) (hm : 0 < m) :
    ∀ ss chunks sc, (∀ c ∈ chunks, c.length ≤ m) → sc.length ≤ m →
      (∀ c ∈ (sentLoop m ss chunks sc).1, c.length ≤ m) ∧
      (sentLoop m ss chunks sc).2.length ≤ m := by
  intro ss
  induction ss with
  | nil => intro chunks sc h1 h2; exact ⟨h1, h2⟩
  | cons s rest ih =>
    intro chunks sc h1 h2
    cases sc with
    | nil =>
      by_cases hs : s.length > m
      · rw [show sentLoop m (s :: rest) chunks [] =
            sentLoop m rest (chunks ++ (hardSplitF m s.length s).map trim) []
            by simp [sentLoop, hs]]
        exact ih _ _ (mem_append_bound h1 (hardSplit_trim_bound hm s)) (by simp)
      · rw [show sentLoop m (s :: rest) chunks [] = sentLoop m rest chunks s
            by simp [sentLoop, hs]]
        exact ih _ _ h1 (by omega)
    | cons a as =>
      have hone : ∀ c ∈ [trim (a :: as)], c.length ≤ m := by
        intro c hc
        simp at hc
        subst hc
        exact le_trans (trim_length_le _) h2
      by_cases ht : m < as.length + (s.length + 1) + 1
      · by_cases hs : s.length > m
        · rw [show sentLoop m (s :: rest) chunks (a :: as) =
              sentLoop m rest
                (chunks ++ trim (a :: as) ::
                  (hardSplitF m s.length s).map trim) []
              by simp [sentLoop, ht, hs]]
          refine ih _ _ ?_ (by simp)
          intro c hc
          rcases List.mem_append.1 hc with h | h
          · exact h1 c h
          · rcases List.mem_cons.1 h with h | h
            · subst h
              exact le_trans (trim_length_le _) h2
            · exact hardSplit_trim_bound hm s c h
        · rw [show sentLoop m (s :: rest) chunks (a :: as) =
              sentLoop m rest (chunks ++ [trim (a :: as)]) s
              by simp [sentLoop, ht, hs]]
          exact ih _ _ (mem_append_bound h1 hone) (by omega)
      · rw [show sentLoop m (s :: rest) chunks (a :: as) =
            sentLoop m rest chunks ((a :: as) ++ ' ' :: s)
            by simp [sentLoop, ht]]
        refine ih _ _ h1 ?_
        simp
        omega

theorem pushCur_bound {m : Nat} {chunks : List Str} {cur : Str}
    (h1 : ∀ c ∈ chunks, c.length ≤ m) (h2 : cur.length ≤ m) :
    ∀ c ∈ pushCur chunks cur, c.length ≤ m := by
  intro c hc
  unfold pushCur at hc
  split_ifs at hc
  · exact h1 c hc
  · exact h1 c hc
  · rcases List.mem_append.1 hc with h | h
    · exact h1 c h
    · simp at h
      subst h
      exact le_trans (trim_length_le cur) h2

theorem paraLoop_bound (m : Nat) (hm : 0 < m) :
    ∀ ps chunks cur, (∀ c ∈ chunks, c.length ≤ m) → cur.length ≤ m →
      (∀ c ∈ (paraLoop m ps chunks cur).1, c.length ≤ m) ∧
      (paraLoop m ps chunks cur).2.length ≤ m := by
  intro ps
  induction ps with
  | nil => intro chunks cur h1 h2; exact ⟨h1, h2⟩
  | cons p rest ih =>
    intro chunks cur h1 h2
    by_cases htp : trim p = []
    · rw [show paraLoop m (p :: rest) chunks cur = paraLoop m rest chunks cur
          by simp [paraLoop, htp]]
      exact ih _ _ h1 h2
    · by_cases hten :
          (if cur = [] then trim p else cur ++ (nn ++ trim p)).length ≤ m
      · rw [show paraLoop m (p :: rest) chunks cur =
            paraLoop m rest chunks
              (if cur = [] then trim p else cur ++ (nn ++ trim p))
            by simp [paraLoop, htp, hten]]
        exact ih _ _ h1 hten
      · have hpc := pushCur_bound h1 h2
        by_cases htpl : (trim p).length ≤ m
        · rw [show paraLoop m (p :: rest) chunks cur =
              paraLoop m rest (pushCur chunks cur) (trim p)
              by simp [paraLoop, htp, hten, htpl]]
          exact ih _ _ hpc htpl
        · have hsb := sentLoop_bound m hm (splitSent (trim p))
            (pushCur chunks cur) [] hpc (by simp)
          rw [show paraLoop m (p :: rest) chunks cur =
              paraLoop m rest
                (sentLoop m (splitSent (trim p)) (pushCur chunks cur) []).1
                (sentLoop m (splitSent (trim p)) (pushCur chunks cur) []).2
              by simp [paraLoop, htp, hten, htpl]]
          exact ih _ _ hsb.1 hsb.2

theorem consHead_chars (c : Char) (ps : List Str) :
    ∀ p ∈ consHead c ps, ∀ x ∈ p, x = c ∨ ∃ q ∈ ps, x ∈ q := by
  cases ps with
  | nil =>
    intro p hp x hx
    simp [consHead] at hp
    subst hp
    simp at hx
    exact Or.inl hx
  | cons q qs =>
    intro p hp x hx
    simp [consHead] at hp
    rcases hp with hp | hp
    · subst hp
      rcases List.mem_cons.1 hx with h | h
      · exact Or.inl h
      · exact Or.inr ⟨q, by simp, h⟩
    · exact Or.inr ⟨p, by simp [hp], hx⟩

theorem splitNN_chars : ∀ l : Str, ∀ p ∈ splitNN l, ∀ c ∈ p, c ∈ l := by
  intro l
  induction l using splitNN.induct with
  | case1 =>
    intro p hp c hc
    simp [splitNN] at hp
    subst hp
    simp at hc
  | case2 d =>
    intro p hp c hc
    simp [splitNN] at hp
    subst hp
    simp at hc
    simp [hc]
  | case3 d d2 rest hif ih =>
    intro p hp c hc
    rw [show splitNN (d :: d2 :: rest) = [] :: splitNN rest
        by simp [splitNN, hif]] at hp
    rcases List.mem_cons.1 hp with h | h
    · subst h
      simp at hc
    · have := ih p h c hc
      simp [this]
  | case4 d d2 rest hif ih =>
    intro p hp c hc
    rw [show splitNN (d :: d2 :: rest) = consHead d (splitNN (d2 :: rest))
        by simp [splitNN, hif]] at hp
    rcases consHead_chars d _ p hp c hc with h | ⟨q, hq, hcq⟩
    · simp [h]
    · exact List.mem_cons_of_mem d (ih q hq c hcq)

theorem trim_eq_nil_of_ws (l : Str) (h : ∀ c ∈ l, isWS c = true) :
    trim l = [] := by
  have h1 : trimL l = [] := by
    rw [trimL, List.dropWhile_eq_nil_iff]
    exact h
  rw [trim, h1]
  rfl

theorem paraLoop_blank (m : Nat) :
    ∀ ps chunks cur, (∀ p ∈ ps, trim p = []) →
      paraLoop m ps chunks cur = (chunks, cur) := by
  intro ps
  induction ps with
  | nil => intro chunks cur _; rfl
  | cons p rest ih =>
    intro chunks cur h
    have hp : trim p = [] := h p (by simp)
    rw [show paraLoop m (p :: rest) chunks cur = paraLoop m rest chunks cur
        by simp [paraLoop, hp]]
    exact ih chunks cur (fun q hq => h q (by simp [hq]))

theorem splitTextIntoChunks_blank (text : Str) (m : Nat)
    (h : ∀ c ∈ text, isWS c = true) : splitTextIntoChunks text m = [] := by
  rw [splitTextIntoChunks_eq,
    paraLoop_blank m (splitNN text) [] []
      (fun p hp => trim_eq_nil_of_ws p (fun c hc => h c (splitNN_chars text p hp c hc)))]
  rfl

theorem paraLoop_reconstruct (m : Nat) :
    ∀ ps chunks cur, (∀ p ∈ ps, (trim p).length ≤ m) →
      (cur = [] ∨ NiceStr cur) →
      ∃ G,
        pushCur (paraLoop m ps chunks cur).1 (paraLoop m ps chunks cur).2 =
          chunks ++ G ∧
        joinSep nn G = joinSep nn (optC cur ++ nbtL ps) ∧
        (G = [] ↔ optC cur ++ nbtL ps = []) := by
  intro ps
  induction ps with
  | nil =>
    intro chunks cur hfit hcur
    rcases hcur with rfl | hn
    · exact ⟨[], by simp [paraLoop, pushCur_nil], by simp [optC, nbtL],
        by simp [optC, nbtL]⟩
    · refine ⟨[cur], ?_, ?_, ?_⟩
      · show pushCur chunks cur = chunks ++ [cur]
        exact pushCur_nice chunks hn
      · have h2 : optC cur = [cur] := by simp [optC, hn.1]
        rw [h2]
        rfl
      · have h2 : optC cur = [cur] := by simp [optC, hn.1]
        rw [h2]
        simp [nbtL]
  | cons p rest ih =>
    intro chunks cur hfit hcur
    have hfit_rest : ∀ q ∈ rest, (trim q).length ≤ m :=
      fun q hq => hfit q (by simp [hq])
    have hfitp : (trim p).length ≤ m := hfit p (by simp)
    by_cases htp : trim p = []
    · rw [show paraLoop m (p :: rest) chunks cur = paraLoop m rest chunks cur
          by simp [paraLoop, htp]]
      have hnbt : nbtL (p :: rest) = nbtL rest := by
        rw [nbtL_cons]
        simp [htp]
      obtain ⟨G, hG, hj, hiff⟩ := ih chunks cur hfit_rest hcur
      exact ⟨G, hG, by rw [hj, hnbt], by rw [hiff, hnbt]⟩
    · have hnp : NiceStr (trim p) := trim_nice htp
      have hnbt : nbtL (p :: rest) = trim p :: nbtL rest := by
        rw [nbtL_cons]
        simp [htp]
      rcases hcur with rfl | hnc
      · rw [show paraLoop m (p :: rest) chunks [] =
            paraLoop m rest chunks (trim p)
            by simp [paraLoop, htp, hfitp]]
        obtain ⟨G, hG, hj, hiff⟩ := ih chunks (trim p) hfit_rest (Or.inr hnp)
        refine ⟨G, hG, ?_, ?_⟩
        · rw [hj, hnbt]
          congr 1
          simp [optC, htp]
        · rw [hiff, hnbt]
          simp [optC, htp]
      · have hcur0 : cur ≠ [] := hnc.1
        by_cases hten :
            (if cur = [] then trim p else cur ++ (nn ++ trim p)).length ≤ m
        · rw [show paraLoop m (p :: rest) chunks cur =
              paraLoop m rest chunks
                (if cur = [] then trim p else cur ++ (nn ++ trim p))
              by simp [paraLoop, htp, hten]]
          rw [if_neg hcur0]
          obtain ⟨G, hG, hj, hiff⟩ := ih chunks (cur ++ (nn ++ trim p))
            hfit_rest (Or.inr (nice_append hnc hnp))
          refine ⟨G, hG, ?_, ?_⟩
          · rw [hj, hnbt]
            have h1 : optC (cur ++ (nn ++ trim p)) = [cur ++ (nn ++ trim p)] := by
              simp [optC, hcur0]
            have h2 : optC cur = [cur] := by simp [optC, hcur0]
            rw [h1, h2]
            simpa using joinSep_cons_cons nn cur (trim p) (nbtL rest)
          · rw [hiff, hnbt]
            simp [optC, hcur0]
        · rw [show paraLoop m (p :: rest) chunks cur =
              paraLoop m rest (pushCur chunks cur) (trim p)
              by simp [paraLoop, htp, hten, hfitp]]
          obtain ⟨G, hG, hj, hiff⟩ := ih (pushCur chunks cur) (trim p)
            hfit_rest (Or.inr hnp)
          rw [pushCur_nice chunks hnc] at hG
          have hGne : G ≠ [] := by
            rw [ne_eq, hiff]
            simp [optC, htp]
          refine ⟨cur :: G, by rw [pushCur_nice chunks hnc, hG]; simp, ?_, ?_⟩
          · rw [joinSep_cons_ne nn cur hGne, hj, hnbt]
            have h2 : optC cur = [cur] := by simp [optC, hcur0]
            have h3 : optC (trim p) = [trim p] := by simp [optC, htp]
            rw [h2, h3]
            rw [show ([cur] ++ trim p :: nbtL rest : List Str) =
                cur :: trim p :: nbtL rest by simp]
            rw [joinSep_cons_ne nn cur (by simp)]
            rfl
          · rw [hnbt]
            simp [optC, hcur0]

/-- C3, counterexample: chunk concatenation is NOT lossless on paragraph
content.  For the one-paragraph document `"a. b."` and threshold 3, the
paragraph exceeds the threshold and is sentence-split into chunks
`["a.", "b."]`; the space of the paragraph content `"a. b."` appears in
no chunk, so no concatenation of the chunks (plain or separator-joined)
can reproduce the content: a character is lost. -/
theorem C3_whitespace_lost :
    splitTextIntoChunks "a. b.".toList 3 = [['a', '.'], ['b', '.']] ∧
    joinSep nn (paragraphContent "a. b.".toList) =
      ['a', '.', ' ', 'b', '.'] ∧
    (splitTextIntoChunks "a. b.".toList 3).flatten.count ' ' = 0 ∧
    (joinSep nn (paragraphContent "a. b.".toList)).count ' ' = 1 ∧
    (splitTextIntoChunks "a. b.".toList 3).flatten ≠
      joinSep nn (paragraphContent "a. b.".toList) ∧
    joinSep nn (splitTextIntoChunks "a. b.".toList 3) ≠
      joinSep nn (paragraphContent "a. b.".toList) := by
  refine ⟨by decide, by decide, by decide, by decide, by decide, by decide⟩

/-- C3, amended: when every trimmed paragraph of the document fits within
the threshold (so no sentence splitting occurs) and at least one
paragraph is non-blank, joining the chunks in output order with the
paragraph separator reproduces the document's paragraph content (its
trimmed non-blank paragraphs joined by the separator) exactly — nothing
lost, nothing duplicated, order preserved — and at least one chunk is
produced.  In general only content up to whitespace is preserved: the
sentence-splitting and hard-splitting paths replace or drop whitespace
(see the counterexample). -/
theorem C3_reconstruction (text : Str) (m : Nat)
    (hfit : ∀ p ∈ splitNN text, (trim p).length ≤ m)
    (hnb : ∃ p ∈ splitNN text, trim p ≠ []) :
    joinSep nn (splitTextIntoChunks text m) =
      joinSep nn (paragraphContent text) ∧
    splitTextIntoChunks text m ≠ [] := by
  obtain ⟨G, hG, hj, hiff⟩ :=
    paraLoop_reconstruct m (splitNN text) [] [] hfit (Or.inl rfl)
  rw [splitTextIntoChunks_eq, hG]
  simp only [List.nil_append]
  have hopt : optC ([] : Str) = [] := rfl
  have hne : nbtL (splitNN text) ≠ [] := by
    obtain ⟨p, hp, hpne⟩ := hnb
    intro h
    have : trim p ∈ nbtL (splitNN text) := by
      simp [nbtL, List.mem_filter]
      exact ⟨⟨p, hp, rfl⟩, hpne⟩
    rw [h] at this
    simp at this
  constructor
  · rw [hj, hopt, paragraphContent_eq]
    rfl
  · intro h
    rw [hiff, hopt] at h
    simp at h
    exact hne h

/-- Witness for C3 amended at `"Hello.\n\nWorld."` with threshold 100. -/
theorem C3_reconstruction_witness :
    joinSep nn (splitTextIntoChunks "Hello.\n\nWorld.".toList 100) =
      joinSep nn (paragraphContent "Hello.\n\nWorld.".toList) ∧
    splitTextIntoChunks "Hello.\n\nWorld.".toList 100 ≠ [] :=
  C3_reconstruction "Hello.\n\nWorld.".toList 100 (by decide) (by decide)

/-- C1: the absolute safety bound `len(summarize(D)) <= len(D)` does NOT
hold unconditionally.  On the single-call path (documents shorter than
30000 characters) `summarizeText` returns the model's output with no
length check at all: for the one-character document `"a"` and a model
that returns the two-character text `"xx"`, the returned summary is
longer than the document. -/
theorem C1_safety_bound_violated_single_call :
    (summarizeText (fun _ => Except.ok ['x','x']) ['a']).1 =
      Except.ok ['x','x'] ∧
    (['x','x'] : Str).length > (['a'] : Str).length :=
  ⟨rfl, by decide⟩

/-- C2, counterexample: server.js `splitTextIntoSections` does NOT bound
its sections.  With the in-source fallback token measure and threshold 1,
the one-paragraph text `"a b"` (3 tokens) is pushed whole as a single
section of 3 > 1 tokens: when a lone paragraph exceeds the threshold it
is emitted as-is, with no sentence or character splitting. -/
theorem C2_sections_exceed_threshold :
    splitTextIntoSections countTokensFallback "a b".toList 1 =
      [['a', ' ', 'b']] ∧
    countTokensFallback ['a', ' ', 'b'] = 3 ∧ 1 < 3 :=
  ⟨by decide, by decide, by decide⟩

/-- C2, amended: fileProcessor.js `splitTextIntoChunks` does bound every
chunk: for every input text and every positive threshold, every emitted
chunk has at most `maxChars` characters, including when a single
paragraph or sentence exceeds the threshold (sentence splitting, then
hard character-offset splitting).  The positivity hypothesis mirrors the
JS code, whose hard-split loop `i += maxChars` does not terminate at
threshold 0.  (server.js `splitTextIntoSections` violates the
corresponding bound; see the counterexample.) -/
theorem C2_chunks_bounded (text : Str) (m : Nat) (hm : 0 < m) :
    ∀ c ∈ splitTextIntoChunks text m, c.length ≤ m := by
  rw [splitTextIntoChunks_eq]
  have h := paraLoop_bound m hm (splitNN text) [] [] (by simp) (by simp)
  exact pushCur_bound h.1 h.2

/-- Witness for C2 amended at the concrete text `"a. b."`, threshold 3
(which forces the sentence-splitting path). -/
theorem C2_chunks_bounded_witness :
    0 < 3 ∧ ∀ c ∈ splitTextIntoChunks "a. b.".toList 3, c.length ≤ 3 :=
  ⟨by decide, C2_chunks_bounded "a. b.".toList 3 (by decide)⟩

/-- C5, amended: only for documents at or above the 30000-character
single-call threshold does `summarizeText` treat blank content as an
error: a whitespace-only document of length at least 30000 produces zero
chunks, and `summarizeText` throws (rewrapped as
`Summarization failed: No text content to summarize`) with zero model
calls.  Shorter empty or whitespace-only documents instead take the
single-call path and do invoke the model (see the counterexample). -/
theorem C5_blank_large_doc_errors (o : Oracle) (text : Str)
    (hws : ∀ c ∈ text, isWS c = true) (hlen : 30000 ≤ text.length) :
    summarizeText o text =
      (Except.error
        "Summarization failed: No text content to summarize".toList, 0) := by
  have hchunks : splitTextIntoChunks text 8000 = [] :=
    splitTextIntoChunks_blank text 8000 hws
  have hnotlt : ¬ text.length < 30000 := by omega
  unfold summarizeText
  rw [if_neg hnotlt, hchunks]
  rfl

/-- Witness for C5 amended at a 30000-space document. -/
theorem C5_blank_large_doc_errors_witness :
    summarizeText (fun _ => Except.ok "hi".toList)
        (List.replicate 30000 ' ') =
      (Except.error
        "Summarization failed: No text content to summarize".toList, 0) :=
  C5_blank_large_doc_errors (fun _ => Except.ok "hi".toList)
    (List.replicate 30000 ' ')
    (fun c hc => by
      rw [List.eq_of_mem_replicate hc]
      rfl)
    (by rw [List.length_replicate])

/-- C4: with a model that fails every attempt with a transient-classified
error, `callGeminiAPI` makes exactly `3` attempts, waiting
`1000 * 2 ^ (attempt - 1)` milliseconds between consecutive attempts
(the exponentially increasing backoffs `[1000, 2000]`), and returns the
tagged placeholder `[Error summarizing chunk: ...]`.  The embedding is a
total function: the error of every attempt is consumed by the catch
block, never propagated. -/
theorem C4_retry_transient (o : Oracle) (e : Str)
    (h1 : ∀ n, o n = Except.error e) (h2 : isRetryable e = true) :
    callGeminiAPI o 3 1000 =
      ("[Error summarizing chunk: ".toList ++ e ++ "]".toList, 3,
        [1000, 2000]) := by
  simp [callGeminiAPI, callAux, h1, h2]

/-- Witness for C4 at a concrete always-503 model. -/
theorem C4_retry_transient_witness :
    callGeminiAPI (fun _ => Except.error "503 Service Unavailable".toList)
        3 1000 =
      ("[Error summarizing chunk: ".toList ++
        "503 Service Unavailable".toList ++ "]".toList, 3, [1000, 2000]) :=
  C4_retry_transient (fun _ => Except.error "503 Service Unavailable".toList)
    "503 Service Unavailable".toList (fun _ => rfl) (by decide)

/-- C5, counterexample: an empty document does NOT raise the
no-content error.  The empty string has length 0 < 30000, so
`summarizeText` takes the single-call path, invokes the model once
(call count 1) and returns its output as the summary. -/
theorem C5_empty_doc_calls_model :
    summarizeText (fun _ => Except.ok "hi".toList) [] =
      (Except.ok "hi".toList, 1) := rfl

/-- C6: combining a one-element list of partial summaries returns the
single summary unchanged and leaves the model-call counter untouched
(no model call is made), for every oracle, counter and target size. -/
theorem C6_single_summary_identity (o : Oracle) (k : Nat) (s : Str)
    (tw : Nat) : combineSummaries o k [s] tw = (s, k) := rfl

/-- C7: with two or more partial summaries and a failing combiner model
call, `combineSummaries` returns the naive `join('\n\n')` concatenation
of all partials (which is never empty) and consumes exactly the one
failed call; the failure is absorbed, not propagated. -/
theorem C7_combine_fallback (o : Oracle) (k : Nat) (ss : List Str)
    (tw : Nat) (e : Str) (h2 : 2 ≤ ss.length)
    (herr : o k = Except.error e) :
    combineSummaries o k ss tw = (joinSep nn ss, k + 1) ∧
    joinSep nn ss ≠ [] := by
  obtain ⟨a, b, rest, rfl⟩ : ∃ a b rest, ss = a :: b :: rest := by
    match ss, h2 with
    | a :: b :: rest, _ => exact ⟨a, b, rest, rfl⟩
  refine ⟨by simp [combineSummaries, herr], ?_⟩
  simp [joinSep, nn]

/-- Witness for C7 at the concrete partials `["x", "y"]` and an
always-failing model. -/
theorem C7_combine_fallback_witness :
    combineSummaries (fun _ => Except.error "boom".toList) 0
        ["x".toList, "y".toList] 5 =
      (joinSep nn ["x".toList, "y".toList], 1) ∧
    joinSep nn ["x".toList, "y".toList] ≠ [] :=
  C7_combine_fallback (fun _ => Except.error "boom".toList) 0
    ["x".toList, "y".toList] 5 "boom".toList (by decide) rfl

set_option maxRecDepth 8000 in
/-- C8, counterexample: the truncation fallback of `compressSummary` can
EXCEED `maxSize`.  For a 600-character summary and `maxSize = 550`
(a 1000-character original with the 55 percent ceiling), the fallback is
the 550-character prefix plus the three-character ellipsis marker:
553 characters, which is greater than 550. -/
theorem C8_fallback_exceeds_bound :
    (compressSummary (fun _ => Except.error "network error".toList) 0
        (List.replicate 600 'a') 550).1.length = 553 ∧ 550 < 553 := by
  refine ⟨?_, by decide⟩
  simp [compressSummary, List.length_take]

/-- C8, amended: whenever the compressor's model call fails, the result
is the input hard-truncated to the first `maxSize` characters with the
trailing `...` marker appended exactly when the input was longer than
`maxSize`; its length is therefore at most `maxSize + 3` (not `maxSize`),
and an input already within the bound is returned unchanged without a
marker. -/
theorem C8_fallback_truncation (o : Oracle) (k : Nat) (s : Str) (mx : Nat)
    (e : Str) (herr : o k = Except.error e) :
    (compressSummary o k s mx).1 =
      s.take mx ++ (if s.length > mx then "...".toList else []) ∧
    (compressSummary o k s mx).1.length ≤ mx + 3 ∧
    (s.length ≤ mx → (compressSummary o k s mx).1 = s) := by
  refine ⟨by simp [compressSummary, herr], ?_, ?_⟩
  · by_cases h : s.length > mx
    · simp [compressSummary, herr, h, List.length_take]
    · simp [compressSummary, herr, h, List.length_take]
  · intro hle
    have h : ¬ s.length > mx := by omega
    simp [compressSummary, herr, h, List.take_of_length_le hle]

/-- Witness for C8 amended, at a 10-character summary, `maxSize = 4` and
a failing model. -/
theorem C8_fallback_truncation_witness :
    (compressSummary (fun _ => Except.error "err".toList) 0
        "0123456789".toList 4).1 =
      "0123456789".toList.take 4 ++
        (if "0123456789".toList.length > 4 then "...".toList else []) ∧
    (compressSummary (fun _ => Except.error "err".toList) 0
        "0123456789".toList 4).1.length ≤ 4 + 3 ∧
    ("0123456789".toList.length ≤ 4 →
      (compressSummary (fun _ => Except.error "err".toList) 0
        "0123456789".toList 4).1 = "0123456789".toList) :=
  C8_fallback_truncation (fun _ => Except.error "err".toList) 0
    "0123456789".toList 4 "err".toList rfl

/-- C9: for every document size `n` and chunk count `c >= 1`, the budgets
computed by `summarizeText` coincide with the spec formulas
`max(200, floor(n * 0.50))`, `max(200, floor(n * 0.55))` and
`max(50, floor(total / c))` under integer floor semantics, and are
bounded below by their floors (hence never zero). -/
theorem C9_budget_planner (n c : Nat) (_hc : 1 ≤ c) :
    totalTargetCharLength n = spec_totalTargetSize n ∧
    maxFinalCharLength n = spec_ceilingSize n ∧
    targetCharLengthPerChunk (totalTargetCharLength n) c =
      spec_perChunkTarget (spec_totalTargetSize n) c ∧
    200 ≤ totalTargetCharLength n ∧
    200 ≤ maxFinalCharLength n ∧
    50 ≤ targetCharLengthPerChunk (totalTargetCharLength n) c := by
  refine ⟨rfl, rfl, rfl, ?_, ?_, ?_⟩ <;>
    simp [totalTargetCharLength, maxFinalCharLength,
      targetCharLengthPerChunk]

/-- Witness for C9 at `n = 1000`, `c = 4`. -/
theorem C9_budget_planner_witness :
    totalTargetCharLength 1000 = spec_totalTargetSize 1000 ∧
    maxFinalCharLength 1000 = spec_ceilingSize 1000 ∧
    targetCharLengthPerChunk (totalTargetCharLength 1000) 4 =
      spec_perChunkTarget (spec_totalTargetSize 1000) 4 ∧
    200 ≤ totalTargetCharLength 1000 ∧
    200 ≤ maxFinalCharLength 1000 ∧
    50 ≤ targetCharLengthPerChunk (totalTargetCharLength 1000) 4 :=
  C9_budget_planner 1000 4 (by decide)

/-- C10: the chunker is a pure function of its two arguments: two runs on
equal inputs and equal thresholds produce identical chunk sequences (the
embedding is a total function reading no state besides `text` and
`maxChars`). -/
theorem C10_chunker_deterministic (t1 t2 : Str) (m1 m2 : Nat)
    (ht : t1 = t2) (hm : m1 = m2) :
    splitTextIntoChunks t1 m1 = splitTextIntoChunks t2 m2 := by
  subst ht; subst hm; rfl

/-- Witness for C10 at a concrete document and threshold. -/
theorem C10_chunker_deterministic_witness :
    splitTextIntoChunks "a. b.".toList 3 =
      splitTextIntoChunks "a. b.".toList 3 :=
  C10_chunker_deterministic "a. b.".toList "a. b.".toList 3 3 rfl rfl
